import Mathlib

set_option maxHeartbeats 1000000

namespace YtChannel

/-!
Shallow embedding of the core of the `chat-ytchannel` repository:
the transcript chunker (`chunkText`), the ingestion workflow steps
(`transcript-workflow.ts`), and the hybrid retrieval function
(`unifiedSearch` in `retrieval-tool.ts`).

Strings are modelled as `List Char` where character-level index
arithmetic matters (the chunker), and as Lean `String` elsewhere.
JavaScript `String.prototype.slice` negative-index semantics are
modelled exactly by `jsClamp`/`jsSlice`.
-/

/-- Index clamping of JavaScript `String.prototype.slice`: a negative index
counts from the end of the string (clamped below at 0), a non-negative index
is clamped above at the length. -/
def jsClamp (len : Nat) (i : Int) : Nat :=
  if i < 0 then ((len : Int) + i).toNat else min i.toNat len

/-- JavaScript `text.slice(s, e)` on a list of characters: the characters from
the clamped start index (inclusive) to the clamped end index (exclusive);
empty when the clamped end is not after the clamped start. -/
def jsSlice (l : List Char) (s e : Int) : List Char :=
  (l.take (jsClamp l.length e)).drop (jsClamp l.length s)

/-- JavaScript `chunk.lastIndexOf(c)`: the index of the last occurrence of
the character `c`, or `-1` when there is none. -/
def lastIndexOfChar (c : Char) : List Char → Int
  | [] => -1
  | a :: rest =>
    if 0 ≤ lastIndexOfChar c rest then lastIndexOfChar c rest + 1
    else if a = c then 0 else -1

/-- The loop body of `chunkText` (transcript-workflow.ts, lines 257-286),
embedded with explicit fuel: `none` means the `while` loop did not finish
within `fuel` iterations.  `start` is an `Int` because the source updates it
with `start += lastSpaceIndex + 1 - overlap`, which can go negative. -/
def chunkTextLoop (text : List Char) (chunkSize overlap : Nat) :
    Nat → Int → List (List Char) → Option (List (List Char))
  | 0, _, _ => none
  | fuel+1, start, chunks =>
    if start < (text.length : Int) then
      let e : Int := min (start + chunkSize) (text.length : Int)
      let chunk := jsSlice text start e
      if e < (text.length : Int) then
        let lastSpaceIndex := lastIndexOfChar ' ' chunk
        if 0 < lastSpaceIndex then
          chunkTextLoop text chunkSize overlap fuel
            (start + lastSpaceIndex + 1 - overlap)
            (chunks ++ [chunk.take lastSpaceIndex.toNat])
        else
          chunkTextLoop text chunkSize overlap fuel
            (start + (chunkSize : Int) - (overlap : Int)) (chunks ++ [chunk])
      else
        some (chunks ++ [chunk])
    else
      some chunks

/-- `chunkText(text, chunkSize, overlap)` from transcript-workflow.ts:
runs the loop from `start = 0` with an empty accumulator. -/
def chunkText (text : List Char) (chunkSize overlap fuel : Nat) :
    Option (List (List Char)) :=
  chunkTextLoop text chunkSize overlap fuel 0 []

/-- Instrumented variant of `chunkTextLoop` that records, next to every
pushed segment, the value of `start` at the iteration that pushed it.
`chunkTextLoopW_erase` proves it is the same computation as
`chunkTextLoop`. -/
def chunkTextLoopW (text : List Char) (chunkSize overlap : Nat) :
    Nat → Int → List (Int × List Char) → Option (List (Int × List Char))
  | 0, _, _ => none
  | fuel+1, start, chunks =>
    if start < (text.length : Int) then
      let e : Int := min (start + chunkSize) (text.length : Int)
      let chunk := jsSlice text start e
      if e < (text.length : Int) then
        let lastSpaceIndex := lastIndexOfChar ' ' chunk
        if 0 < lastSpaceIndex then
          chunkTextLoopW text chunkSize overlap fuel
            (start + lastSpaceIndex + 1 - overlap)
            (chunks ++ [(start, chunk.take lastSpaceIndex.toNat)])
        else
          chunkTextLoopW text chunkSize overlap fuel
            (start + (chunkSize : Int) - (overlap : Int)) (chunks ++ [(start, chunk)])
      else
        some (chunks ++ [(start, chunk)])
    else
      some chunks

/-- `chunkText` with recorded starts. -/
def chunkTextW (text : List Char) (chunkSize overlap fuel : Nat) :
    Option (List (Int × List Char)) :=
  chunkTextLoopW text chunkSize overlap fuel 0 []

/-!
Data model of the ingestion pipeline (db/schema.ts and the records built in
transcript-workflow.ts).  Timestamps are `Nat`; `new Date()` calls inside one
pipeline run are modelled by the single `time` parameter of the run.
Embedding vectors are opaque values produced by the embedding collaborator,
modelled as `Nat`.
-/

/-- The `metadata` jsonb of a video row, with the fields the code reads or
writes (`title` is only ever read, in retrieval-tool.ts).  Absent keys are
`none`. -/
structure Meta where
  title : Option String := none
  summary : Option String := none
  speakers : Option (List String) := none
  keyTopics : Option (List String) := none
  actionItems : Option (List String) := none
  tags : Option (List String) := none
  chunkCount : Option Nat := none
deriving DecidableEq, Repr

/-- A row of the `videos` table (schema.ts): id, nullable transcript,
nullable jsonb metadata, timestamps. -/
structure Video where
  id : String
  fullTranscript : Option String
  metadata : Option Meta
  createdAt : Nat
  updatedAt : Nat
deriving DecidableEq, Repr

/-- The `metadata` object inside a chunk row's `data` jsonb. -/
structure ChunkMeta where
  chunkIndex : Nat
  totalChunks : Nat
  topics : List String
deriving DecidableEq, Repr

/-- The `data` jsonb of a chunk row. -/
structure ChunkData where
  chunkIndex : Nat
  content : List Char
  embedding : Nat
  metadata : ChunkMeta
deriving DecidableEq, Repr

/-- A row of the `chunks` table (schema.ts): primary key `id`,
foreign key `videoId`, jsonb `data`, timestamp. -/
structure ChunkRow where
  id : String
  videoId : String
  data : ChunkData
  createdAt : Nat
deriving DecidableEq, Repr

/-- Result of the structured-extraction collaborator (`videoDataSchema`). -/
structure Extracted where
  summary : String
  keyTopics : List String
  speakers : Option (List String)
  actionItems : Option (List String)
  tags : List String
deriving DecidableEq, Repr

/-- The durable stores: `videos` table, `chunks` table, and the
`video_chunks` vector index (id ↦ vector). -/
structure DB where
  videos : List Video
  chunks : List ChunkRow
  vectors : List (String × Nat)
deriving DecidableEq, Repr

/-- External collaborators of one pipeline run, plus whether the
existence-check database lookup throws.  `none` results model a rejected
promise / thrown error of the collaborator. -/
structure Env where
  lookupError : Bool
  download : String → Option String
  transcribe : String → List String → Option String
  extract : String → Option Extracted
  embedMany : List String → List Nat

/-- Output of `checkVideoStep` (`exists` is a Lean keyword, hence
`existsFlag`). -/
structure CheckOut where
  videoId : String
  existsFlag : Bool
  videoRecord : Option Video
  keywords : List String
deriving DecidableEq, Repr

/-- Output of `downloadVideoStep`. -/
structure DownloadOut where
  videoFileName : Option String
  videoId : String
  existsFlag : Bool
  videoRecord : Option Video
  keywords : List String
deriving DecidableEq, Repr

/-- Output of `getTranscriptStep`.  `transcript` and `transcriptFileName` are
`Option` because the cached branch copies them from the stored record, whose
`fullTranscript` is nullable and which has no `transcriptFileName` field at
all (so the source produces `undefined` there). -/
structure TranscriptOut where
  transcript : Option String
  transcriptFileName : Option String
  videoFileDeleted : Bool
  videoId : String
  existsFlag : Bool
  videoRecord : Option Video
deriving DecidableEq, Repr

/-- Output of `extractDataStep` (its output schema drops `videoRecord`). -/
structure ExtractOut where
  transcript : Option String
  transcriptFileName : Option String
  videoFileDeleted : Bool
  extractedData : Extracted
  videoId : String
  existsFlag : Bool
deriving DecidableEq, Repr

/-- Output of `chunkAndEmbedStep`, the terminal workflow output. -/
structure FinalOut where
  transcript : Option String
  transcriptFileName : Option String
  videoFileDeleted : Bool
  extractedData : Extracted
  chunksCreated : Nat
  embeddingsGenerated : Nat
  videoRecord : Option Video
  chunkRecords : List ChunkRow
deriving DecidableEq, Repr

/-- JavaScript `a || b` for a possibly-absent string: the empty string is
falsy. -/
def jsOrStr (o : Option String) (dflt : String) : String :=
  match o with
  | some s => if s = "" then dflt else s
  | none => dflt

/-- `checkVideoExists` (transcript-workflow.ts, lines 69-104): looks the id
up in the `videos` table; a thrown lookup error is caught and treated as
"not found". -/
def checkVideoExists (env : Env) (videos : List Video) (videoId : String) :
    Bool × Option Video :=
  if env.lookupError then (false, none)
  else
    match videos.filter (fun v => v.id == videoId) with
    | [] => (false, none)
    | r :: _ => (true, some r)

/-- `checkVideoStep.execute`. -/
def checkVideoStep (env : Env) (db : DB) (videoId : String)
    (keywords : List String) : CheckOut :=
  let r := checkVideoExists env db.videos videoId
  ⟨videoId, r.1, r.2, keywords⟩

/-- `downloadVideoStep.execute`: skips the download when the video already
exists; otherwise delegates to the download collaborator (its output object
then carries no `videoRecord`). -/
def downloadVideoStep (env : Env) (i : CheckOut) : Option DownloadOut :=
  if i.existsFlag then
    some ⟨none, i.videoId, true, i.videoRecord, i.keywords⟩
  else
    (env.download i.videoId).map fun f =>
      ⟨some f, i.videoId, false, none, i.keywords⟩

/-- `path.join("./transcription/", baseName + "_transcript.txt")` of
`getTranscript`, with the base name abstracted to the downloaded file
name. -/
def mkTranscriptFileName (videoFileName : String) : String :=
  "./transcription/" ++ videoFileName ++ "_transcript.txt"

/-- `getTranscriptStep.execute`: when the video exists and a record was
passed along, reuses the stored transcript (the record has no
`transcriptFileName` field, so that output is `undefined`); otherwise throws
if there is no file name, and transcribes via the collaborator. -/
def getTranscriptStep (env : Env) (i : DownloadOut) : Option TranscriptOut :=
  if i.existsFlag && i.videoRecord.isSome then
    some ⟨i.videoRecord.bind (fun r => r.fullTranscript), none, true,
      i.videoId, true, i.videoRecord⟩
  else
    match i.videoFileName with
    | none => none
    | some f =>
      (env.transcribe f i.keywords).map fun t =>
        ⟨some t, some (mkTranscriptFileName f), true, i.videoId, false, none⟩

/-- The extracted-data object the cached branch of `extractDataStep` rebuilds
from the stored record's metadata (with `||` defaults). -/
def cachedExtract (r : Video) : Extracted :=
  let m := r.metadata.getD {}
  ⟨jsOrStr m.summary "No summary available", m.keyTopics.getD [],
    m.speakers, m.actionItems, m.tags.getD []⟩

/-- `extractDataStep.execute`: reuses stored metadata when the video exists,
otherwise delegates to the structured-extraction collaborator. -/
def extractDataStep (env : Env) (i : TranscriptOut) : Option ExtractOut :=
  if i.existsFlag && i.videoRecord.isSome then
    match i.videoRecord with
    | some r =>
      some ⟨i.transcript, i.transcriptFileName, i.videoFileDeleted,
        cachedExtract r, i.videoId, true⟩
    | none => none
  else
    match i.transcript with
    | none => none
    | some t =>
      (env.extract t).map fun ex =>
        ⟨i.transcript, i.transcriptFileName, i.videoFileDeleted, ex,
          i.videoId, false⟩

/-- Chunk-record id: `` `${videoId}_chunk_${index}` ``. -/
def chunkIdOf (videoId : String) (index : Nat) : String :=
  videoId ++ "_chunk_" ++ Nat.repr index

/-- The `chunkRecords` array built in `chunkAndEmbedTranscript`
(`chunks.map((chunk, index) => ...)`), written as a recursion on the chunk
list with an explicit running index. -/
def mkChunkRecords (videoId : String) (topics : List String) (total : Nat)
    (embeds : List Nat) (time : Nat) : Nat → List (List Char) → List ChunkRow
  | _, [] => []
  | i, c :: rest =>
    ⟨chunkIdOf videoId i, videoId, ⟨i, c, embeds.getD i 0, ⟨i, total, topics⟩⟩,
      time⟩ :: mkChunkRecords videoId topics total embeds time (i+1) rest

/-- `db.insert(videos).values(rec).onConflictDoUpdate(...)`: update
`fullTranscript`, `metadata` and `updatedAt` in place when the id exists,
insert the record otherwise. -/
def upsertVideo (videos : List Video) (rec : Video) (time : Nat) :
    List Video :=
  if videos.any (fun v => v.id == rec.id) then
    videos.map fun v =>
      if v.id == rec.id then
        { v with fullTranscript := rec.fullTranscript,
                 metadata := rec.metadata, updatedAt := time }
      else v
  else videos ++ [rec]

/-- One `db.insert(chunks).values(c).onConflictDoNothing()`. -/
def insertChunkIfAbsent (chunks : List ChunkRow) (c : ChunkRow) :
    List ChunkRow :=
  if chunks.any (fun x => x.id == c.id) then chunks else chunks ++ [c]

/-- The sequential `for (const chunk of chunkRecords)` insert loop. -/
def insertChunks (chunks : List ChunkRow) (records : List ChunkRow) :
    List ChunkRow :=
  records.foldl insertChunkIfAbsent chunks

/-- `vectorStore.upsert`: replace the vector stored under an id, or append
the pair when the id is new. -/
def upsertVectors (vectors : List (String × Nat))
    (pairs : List (String × Nat)) : List (String × Nat) :=
  pairs.foldl
    (fun acc p =>
      if acc.any (fun q => q.1 == p.1) then
        acc.map fun q => if q.1 == p.1 then p else q
      else acc ++ [p])
    vectors

/-- `chunkAndEmbedStep.execute`: when the video exists, reconstructs the
output from the stored rows (a count query plus two selects) and performs no
write and no embedding call; otherwise runs `chunkAndEmbedTranscript`:
chunk the transcript (500/100), embed all chunks in one batch, upsert the
video row, insert the chunk rows if absent, and upsert the vectors. -/
def chunkAndEmbedStep (env : Env) (db : DB) (time fuel : Nat)
    (i : ExtractOut) : Option (FinalOut × DB) :=
  if i.existsFlag then
    let own := db.chunks.filter fun c => c.videoId == i.videoId
    let cnt := own.length
    some (⟨i.transcript, i.transcriptFileName, true, i.extractedData, cnt,
      cnt, (db.videos.filter (fun v => v.id == i.videoId)).head?, own⟩, db)
  else
    match i.transcript with
    | none => none
    | some t =>
      match chunkText t.toList 500 100 fuel with
      | none => none
      | some chunks =>
        let videoRecord : Video :=
          ⟨i.videoId, some t,
            some ⟨none, some i.extractedData.summary, i.extractedData.speakers,
              some i.extractedData.keyTopics, i.extractedData.actionItems,
              some i.extractedData.tags, some chunks.length⟩, time, time⟩
        let embeddings := env.embedMany (chunks.map List.asString)
        let chunkRecords :=
          mkChunkRecords i.videoId i.extractedData.keyTopics chunks.length
            embeddings time 0 chunks
        let db' : DB :=
          ⟨upsertVideo db.videos videoRecord time,
            insertChunks db.chunks chunkRecords,
            upsertVectors db.vectors
              (chunkRecords.map fun r => (r.id, r.data.embedding))⟩
        some (⟨i.transcript, i.transcriptFileName, i.videoFileDeleted,
          i.extractedData, chunks.length, embeddings.length,
          some videoRecord, chunkRecords⟩, db')

/-- The workflow after `checkVideoStep`: the remaining four steps chained
with error propagation. -/
def runFrom (env : Env) (db : DB) (time fuel : Nat) (c : CheckOut) :
    Option (FinalOut × DB) :=
  (downloadVideoStep env c).bind fun d =>
    (getTranscriptStep env d).bind fun tr =>
      (extractDataStep env tr).bind fun ex =>
        chunkAndEmbedStep env db time fuel ex

/-- The whole `transcriptWorkflow`: check, then the downstream steps. -/
def runPipeline (env : Env) (db : DB) (time fuel : Nat) (videoId : String)
    (keywords : List String) : Option (FinalOut × DB) :=
  runFrom env db time fuel (checkVideoStep env db videoId keywords)

/-- The chunk count the cached branch of `chunkAndEmbedStep` reads back
(`count(*)` over the video's chunk rows). -/
def cachedCnt (db : DB) (videoId : String) : Nat :=
  (db.chunks.filter fun c => c.videoId == videoId).length

/-- The database with empty stores. -/
def emptyDB : DB := ⟨[], [], []⟩

/-- A concrete, always-succeeding collaborator environment (used in
witnesses). -/
def testEnv : Env :=
  ⟨false, fun _ => some "file", fun _ _ => some "hello world",
    fun _ => some ⟨"sum", ["topic"], none, none, ["tag"]⟩,
    fun l => l.map fun _ => 0⟩

/-- A concrete collaborator environment whose external calls all fail
(used in witnesses to show cached runs never consult them). -/
def failEnv : Env :=
  ⟨false, fun _ => none, fun _ _ => none, fun _ => none, fun _ => []⟩

/-- A concrete environment whose existence-check lookup throws
(used in witnesses). -/
def errEnv : Env :=
  ⟨true, fun _ => none, fun _ _ => none, fun _ => none, fun _ => []⟩

/-!
Hybrid retrieval (`retrieval-tool.ts`): `queryVideos` resolves metadata
filters against the `videos` table, `unifiedSearch` is the two-stage
planner.  The vector store and the query-embedding call are external,
modelled by `SearchEnv`.
-/

/-- The filter object of `unifiedSearch`; absent keys are `none`.  Dates are
modelled as `Nat` (already-parsed timestamps). -/
structure Filter where
  content : Option String := none
  speakers : Option (List String) := none
  topics : Option (List String) := none
  tags : Option (List String) := none
  speakerContains : Option String := none
  topicContains : Option String := none
  titleContains : Option String := none
  summaryContains : Option String := none
  dateFrom : Option Nat := none
  dateTo : Option Nat := none
deriving DecidableEq, Repr

/-- `Object.keys(filter).some((key) => key !== "content")`: some filter key
other than `content` is present. -/
def Filter.hasNonContentKey (f : Filter) : Bool :=
  f.speakers.isSome || f.topics.isSome || f.tags.isSome ||
    f.speakerContains.isSome || f.topicContains.isSome ||
    f.titleContains.isSome || f.summaryContains.isSome ||
    f.dateFrom.isSome || f.dateTo.isSome

/-- `needle` occurs contiguously inside `hay` — SQL `LIKE '%needle%'`. -/
def listHasSub (needle hay : List Char) : Bool :=
  (List.range (hay.length + 1)).any fun i => needle.isPrefixOf (hay.drop i)

/-- SQL `LIKE '%pat%'` on strings. -/
def likeContains (pat subject : String) : Bool :=
  listHasSub pat.toList subject.toList

/-- The text rendering of a jsonb string array, for the
`metadata->'...'::text LIKE '%x%'` conditions. -/
def jsonArr (l : List String) : String :=
  "[" ++ String.intercalate ", " (l.map fun s => "\x22" ++ s ++ "\x22") ++ "]"

/-- The conjunction of conditions `queryVideos` builds: each present filter
field contributes one predicate; conditions on an absent jsonb key are SQL
NULL, i.e. do not match. -/
def matchesFilter (f : Filter) (v : Video) : Bool :=
  let m := v.metadata.getD {}
  (match f.titleContains with
    | none => true
    | some p => match m.title with
      | none => false
      | some t => likeContains p t) &&
  (match f.summaryContains with
    | none => true
    | some p => match m.summary with
      | none => false
      | some s => likeContains p s) &&
  (match f.speakerContains with
    | none => true
    | some p => match m.speakers with
      | none => false
      | some l => likeContains p (jsonArr l)) &&
  (match f.topicContains with
    | none => true
    | some p => match m.keyTopics with
      | none => false
      | some l => likeContains p (jsonArr l)) &&
  (match f.tags with
    | none => true
    | some ts =>
      if ts.isEmpty then true
      else match m.tags with
        | none => false
        | some l => ts.any fun t => l.contains t) &&
  (match f.speakers with
    | none => true
    | some ts =>
      if ts.isEmpty then true
      else match m.speakers with
        | none => false
        | some l => ts.any fun t => l.contains t) &&
  (match f.topics with
    | none => true
    | some ts =>
      if ts.isEmpty then true
      else match m.keyTopics with
        | none => false
        | some l => ts.any fun t => l.contains t) &&
  (match f.dateFrom with
    | none => true
    | some d => d ≤ v.createdAt) &&
  (match f.dateTo with
    | none => true
    | some d => v.createdAt ≤ d)

/-- Insertion step of the `orderBy(createdAt)` sort. -/
def insertByCreatedAt (v : Video) : List Video → List Video
  | [] => [v]
  | w :: ws =>
    if v.createdAt ≤ w.createdAt then v :: w :: ws
    else w :: insertByCreatedAt v ws

/-- `ORDER BY createdAt` ascending. -/
def sortByCreatedAt (l : List Video) : List Video :=
  l.foldr insertByCreatedAt []

/-- `queryVideos` (retrieval-tool.ts, lines 25-117): filter the `videos`
table by the present conditions, ordered by creation time. -/
def queryVideos (videos : List Video) (f : Filter) : List Video :=
  sortByCreatedAt (videos.filter (matchesFilter f))

/-- Search mode (`"auto" | "semantic" | "metadata"`). -/
inductive SMode
  | auto
  | semantic
  | metadata
deriving DecidableEq, Repr

/-- One hit returned by the vector store. -/
structure VecHit where
  id : String
  score : Int
deriving DecidableEq, Repr

/-- The `pgFilter` object passed to `vectorStore.query`. -/
structure PgFilter where
  videoIdIn : Option (List String) := none
  contentRegex : Option String := none
deriving DecidableEq, Repr

/-- External collaborators of a search: the query-embedding call and the
vector store (embedding, topK, filter ↦ hits). -/
structure SearchEnv where
  embed : String → Nat
  vectorQuery : Nat → Nat → PgFilter → List VecHit

/-- Video summary returned in metadata (browse) mode. -/
structure VideoSummary where
  id : String
  title : Option String
  summary : Option String
  speakers : List String
  keyTopics : List String
  tags : List String
  createdAt : Nat
deriving DecidableEq, Repr

/-- The result object of `unifiedSearch`. -/
structure SearchResult where
  results : List VecHit
  videos : List VideoSummary
  mode : SMode
deriving DecidableEq, Repr

/-- The summary mapping of the metadata-mode return (convenience fields as
in `queryVideos`: absent list fields default to `[]`). -/
def toSummary (v : Video) : VideoSummary :=
  let m := v.metadata.getD {}
  ⟨v.id, m.title, m.summary, m.speakers.getD [], m.keyTopics.getD [],
    m.tags.getD [], v.createdAt⟩

/-- JavaScript `s.trim()`: drop whitespace from both ends. -/
def jsTrim (s : String) : String :=
  (((s.toList.dropWhile Char.isWhitespace).reverse.dropWhile
    Char.isWhitespace).reverse).asString

/-- Truthiness of `query?.trim()`. -/
def queryTrimTruthy : Option String → Bool
  | none => false
  | some s => !(jsTrim s == "")

/-- Truthiness of `query`. -/
def queryTruthy : Option String → Bool
  | none => false
  | some s => !(s == "")

/-- Truthiness of `filter?.content` (empty string is falsy, so it adds no
content condition). -/
def jsTruthyOpt : Option String → Option String
  | none => none
  | some s => if s == "" then none else some s

/-- `unifiedSearch` (retrieval-tool.ts, lines 119-233).  The tool always
invokes it with `mode = auto`.  Stage 1 resolves metadata filters to
candidate video ids (with the empty-candidate short-circuit and the
metadata-mode early return); stage 2 embeds the query and queries the
vector store, restricted to the candidate ids when they exist. -/
def unifiedSearch (videos : List Video) (env : SearchEnv)
    (query : Option String) (filter : Option Filter) (topK : Nat)
    (mode : SMode) : SearchResult :=
  let searchMode :=
    if mode == SMode.auto then
      if queryTrimTruthy query then SMode.semantic else SMode.metadata
    else mode
  let semanticPart : Option (List String) → SearchResult := fun videoIds =>
    if searchMode == SMode.semantic && queryTruthy query then
      let pgFilter : PgFilter :=
        ⟨videoIds, jsTruthyOpt (filter.bind fun f => f.content)⟩
      let embedding := env.embed (query.getD "")
      ⟨env.vectorQuery embedding topK pgFilter, [], searchMode⟩
    else ⟨[], [], searchMode⟩
  match filter with
  | some f =>
    if f.hasNonContentKey then
      let vids := queryVideos videos f
      if vids.length == 0 then ⟨[], [], searchMode⟩
      else if searchMode == SMode.metadata then
        ⟨[], vids.map toSummary, searchMode⟩
      else semanticPart (some (vids.map fun v => v.id))
    else semanticPart none
  | none => semanticPart none

/-!
Property-level definitions used to state the claims about the chunker.
-/

/-- Drop a prefix of `d` characters from each segment after the first
(`rejoinDrops`), modelling "concatenating the segments' non-overlapping
portions in order, dropping the engineered overlaps" for one choice of
per-boundary overlap amounts `ds`. -/
def rejoinAux : List (List Char) → List Nat → List Char
  | [], _ => []
  | s :: rest, [] => s ++ rejoinAux rest []
  | s :: rest, d :: ds => s.drop d ++ rejoinAux rest ds

/-- The first segment is kept whole; each later segment loses a
chosen overlap prefix. -/
def rejoinDrops : List (List Char) → List Nat → List Char
  | [], _ => []
  | s :: rest, ds => s ++ rejoinAux rest ds

/-- The segments can be rejoined to `t` for some choice of dropped
overlap amounts. -/
def rejoins (segs : List (List Char)) (t : List Char) : Prop :=
  ∃ ds : List Nat, rejoinDrops segs ds = t

/-- The window `text.slice(start, min(start + chunkSize, length))` examined
by one chunker iteration. -/
def windowOf (text : List Char) (st : Int) (cs : Nat) : List Char :=
  jsSlice text st (min (st + cs) (text.length : Int))

/-- Position `b` of `text` is a boundary strictly inside a word: the
characters on both sides exist and neither is whitespace. -/
def splitsWordB (text : List Char) : Nat → Bool
  | 0 => false
  | b+1 =>
    match text.get? b, text.get? (b+1) with
    | some c1, some c2 => !c1.isWhitespace && !c2.isWhitespace
    | _, _ => false

/-- The list contains a whitespace character. -/
def hasWhitespaceB (l : List Char) : Bool :=
  l.any Char.isWhitespace

/-- Claim C3 as stated: every produced segment except the last ends either
on a boundary that does not split a word, or its window contained no
whitespace at all (the documented fallback exception). -/
def wordBoundaryClaim (text : List Char) (cs ov fuel : Nat) : Prop :=
  ∀ L, chunkTextW text cs ov fuel = some L →
    ∀ i st seg, i + 1 < L.length → L.get? i = some (st, seg) → 0 ≤ st →
      splitsWordB text (st.toNat + seg.length) = false ∨
        hasWhitespaceB (windowOf text st cs) = false

/-- Word-boundary property of one recorded segment, as the code actually
guarantees it: if the segment was produced at a non-negative `start`, then
either the character of `text` right after the segment is a space (the
back-off branch cut there), or the segment's window had no space at positive
index and the segment is the whole window (fixed-size fallback). -/
def SegOk (text : List Char) (cs : Nat) (p : Int × List Char) : Prop :=
  0 ≤ p.1 →
    text.get? (p.1.toNat + p.2.length) = some ' ' ∨
      (lastIndexOfChar ' ' (windowOf text p.1 cs) ≤ 0 ∧
        p.2 = windowOf text p.1 cs)

/-- All segments of the list except the last satisfy `SegOk`. -/
def PrefOk (text : List Char) (cs : Nat) (l : List (Int × List Char)) :
    Prop :=
  ∀ j p, j + 1 < l.length → l.get? j = some p → SegOk text cs p

/-- Numeric value of a decimal digit character. -/
def digitVal (c : Char) : Nat := c.toNat - 48

/-- Value of a most-significant-first decimal digit string appended to the
accumulated value `init`. -/
def evalDigits (init : Nat) (l : List Char) : Nat :=
  l.foldl (fun a c => 10 * a + digitVal c) init

/-!
Helper lemmas.
-/

theorem chunkTextLoopW_erase (text : List Char) (cs ov : Nat) :
    ∀ (fuel : Nat) (start : Int) (acc : List (Int × List Char)),
      (chunkTextLoopW text cs ov fuel start acc).map (List.map Prod.snd) =
        chunkTextLoop text cs ov fuel start (acc.map Prod.snd) := by
  intro fuel
  induction fuel with
  | zero => intro start acc; rfl
  | succ n ih =>
    intro start acc
    simp only [chunkTextLoopW, chunkTextLoop]
    split
    · split
      · split
        · rw [ih]; simp
        · rw [ih]; simp
      · simp
    · rfl

/-- The instrumented chunker is the chunker with recorded starts. -/
theorem chunkTextW_erase (text : List Char) (cs ov fuel : Nat) :
    (chunkTextW text cs ov fuel).map (List.map Prod.snd) =
      chunkText text cs ov fuel := by
  simpa using chunkTextLoopW_erase text cs ov fuel 0 []

/-- C9: a search call that supplies neither a query nor a filter returns the
empty result — not an error — and the result is a constant: it does not
depend on the stored videos, the embedding collaborator, or the vector
store, so neither the metadata filter path nor the vector index is
consulted. -/
theorem search_no_args_empty (videos : List Video) (env : SearchEnv)
    (topK : Nat) :
    unifiedSearch videos env none none topK SMode.auto =
      ⟨[], [], SMode.metadata⟩ := rfl

/-- C10: a whitespace-only query behaves exactly as an absent query: for
every store, environment, filter and topK, the search result is the same as
for the call without a query (browse/metadata path, no embedding, no vector
query). -/
theorem whitespace_query_browses (videos : List Video) (env : SearchEnv)
    (s : String) (filter : Option Filter) (topK : Nat)
    (h : jsTrim s = "") :
    unifiedSearch videos env (some s) filter topK SMode.auto =
      unifiedSearch videos env none filter topK SMode.auto := by
  cases filter <;>
    simp [unifiedSearch, queryTrimTruthy, h]

/-- Witness for C10 at a concrete whitespace query. -/
theorem whitespace_query_browses_witness :
    jsTrim " " = "" ∧
      unifiedSearch [] ⟨fun _ => 0, fun _ _ _ => []⟩ (some " ") none 10
          SMode.auto =
        unifiedSearch [] ⟨fun _ => 0, fun _ _ _ => []⟩ none none 10
          SMode.auto :=
  ⟨by decide,
    whitespace_query_browses [] ⟨fun _ => 0, fun _ _ _ => []⟩ " " none 10
      (by decide)⟩

/-- C6: with a non-empty (non-whitespace) query and a metadata filter whose
stage-1 resolution yields no candidate videos, the planner short-circuits to
the empty search result; the result is a constant independent of the
embedding collaborator and the vector store, so no vector index query is
ever issued. -/
theorem empty_filter_short_circuits (videos : List Video) (env : SearchEnv)
    (s : String) (f : Filter) (topK : Nat) (hq : ¬ jsTrim s = "")
    (hk : f.hasNonContentKey = true) (he : queryVideos videos f = []) :
    unifiedSearch videos env (some s) (some f) topK SMode.auto =
      ⟨[], [], SMode.semantic⟩ := by
  simp [unifiedSearch, queryTrimTruthy, hq, hk, he]

/-- Witness for C6: a query against an empty store with a tag filter. -/
theorem empty_filter_short_circuits_witness :
    (¬ jsTrim "workflows" = "") ∧
      (⟨none, none, none, some ["nonexistent-tag"], none, none, none, none,
          none, none⟩ : Filter).hasNonContentKey = true ∧
      queryVideos []
          ⟨none, none, none, some ["nonexistent-tag"], none, none, none,
            none, none, none⟩ = [] ∧
      unifiedSearch [] ⟨fun _ => 0, fun _ _ _ => []⟩ (some "workflows")
          (some ⟨none, none, none, some ["nonexistent-tag"], none, none,
            none, none, none, none⟩) 10 SMode.auto =
        ⟨[], [], SMode.semantic⟩ :=
  ⟨by decide, by decide, rfl,
    empty_filter_short_circuits [] ⟨fun _ => 0, fun _ _ _ => []⟩ "workflows"
      ⟨none, none, none, some ["nonexistent-tag"], none, none, none, none,
        none, none⟩ 10 (by decide) (by decide) rfl⟩

theorem mem_rejoinAux {c : Char} :
    ∀ (segs : List (List Char)) (ds : List Nat),
      c ∈ rejoinAux segs ds → ∃ s ∈ segs, c ∈ s := by
  intro segs
  induction segs with
  | nil => intro ds h; cases ds <;> simp [rejoinAux] at h
  | cons s rest ih =>
    intro ds h
    cases ds with
    | nil =>
      simp only [rejoinAux, List.mem_append] at h
      rcases h with h | h
      · exact ⟨s, by simp, h⟩
      · obtain ⟨x, hx, hc⟩ := ih [] h
        exact ⟨x, by simp [hx], hc⟩
    | cons d ds =>
      simp only [rejoinAux, List.mem_append] at h
      rcases h with h | h
      · exact ⟨s, by simp, List.mem_of_mem_drop h⟩
      · obtain ⟨x, hx, hc⟩ := ih ds h
        exact ⟨x, by simp [hx], hc⟩

theorem mem_rejoinDrops {c : Char} (segs : List (List Char))
    (ds : List Nat) (h : c ∈ rejoinDrops segs ds) : ∃ s ∈ segs, c ∈ s := by
  cases segs with
  | nil => simp [rejoinDrops] at h
  | cons s rest =>
    simp only [rejoinDrops, List.mem_append] at h
    rcases h with h | h
    · exact ⟨s, by simp, h⟩
    · obtain ⟨x, hx, hc⟩ := mem_rejoinAux rest ds h
      exact ⟨x, by simp [hx], hc⟩

theorem jsClamp_le (len : Nat) (i : Int) : jsClamp len i ≤ len := by
  unfold jsClamp
  split <;> omega

theorem jsSlice_length (l : List Char) (s e : Int) :
    (jsSlice l s e).length = jsClamp l.length e - jsClamp l.length s := by
  unfold jsSlice
  rw [List.length_drop, List.length_take]
  have := jsClamp_le l.length e
  omega

/-- Every window the chunker slices has length at most `chunkSize`. -/
theorem window_length_le (l : List Char) (s : Int) (cs : Nat) :
    (jsSlice l s (min (s + cs) (l.length : Int))).length ≤ cs := by
  rw [jsSlice_length]
  have h1 : min (s + (cs : Int)) (l.length : Int) ≤ s + cs :=
    min_le_left _ _
  have h2 : min (s + (cs : Int)) (l.length : Int) ≤ (l.length : Int) :=
    min_le_right _ _
  have h3 : (s : Int) ≤ min (s + (cs : Int)) (l.length : Int) ∨
      min (s + (cs : Int)) (l.length : Int) = (l.length : Int) := by
    rcases min_cases (s + (cs : Int)) (l.length : Int) with ⟨h, _⟩ | ⟨h, _⟩
    · left; omega
    · right; omega
  unfold jsClamp
  split_ifs <;> omega

theorem chunkTextLoop_length_le (text : List Char) (cs ov : Nat) :
    ∀ (fuel : Nat) (start : Int) (acc segs : List (List Char)),
      chunkTextLoop text cs ov fuel start acc = some segs →
      (∀ s ∈ acc, s.length ≤ cs) → ∀ s ∈ segs, s.length ≤ cs := by
  intro fuel
  induction fuel with
  | zero => intro start acc segs h; cases h
  | succ n ih =>
    intro start acc segs h hacc
    simp only [chunkTextLoop] at h
    split at h
    · split at h
      · split at h
        · refine ih _ _ _ h ?_
          intro s hs
          rcases List.mem_append.1 hs with hs | hs
          · exact hacc s hs
          · have hs' : s = (jsSlice text start
                (min (start + cs) (text.length : Int))).take
                  (lastIndexOfChar ' ' (jsSlice text start
                    (min (start + cs) (text.length : Int)))).toNat := by
              simpa using hs
            subst hs'
            calc (List.take _ _).length ≤ (jsSlice text start
                  (min (start + cs) (text.length : Int))).length := by
                  simp [List.length_take]
              _ ≤ cs := window_length_le _ _ _
        · refine ih _ _ _ h ?_
          intro s hs
          rcases List.mem_append.1 hs with hs | hs
          · exact hacc s hs
          · have hs' : s = jsSlice text start
                (min (start + cs) (text.length : Int)) := by simpa using hs
            subst hs'
            exact window_length_le _ _ _
      · cases h
        intro s hs
        rcases List.mem_append.1 hs with hs | hs
        · exact hacc s hs
        · have hs' : s = jsSlice text start
              (min (start + cs) (text.length : Int)) := by simpa using hs
          subst hs'
          exact window_length_le _ _ _
    · cases h
      exact hacc

/-- C4: for every input and every valid parameter pair, every segment the
chunker produces has length at most the target chunk length. -/
theorem segment_length_le_target (text : List Char) (cs ov fuel : Nat)
    (_hov : 0 < ov) (_hcs : ov < cs) (segs : List (List Char))
    (h : chunkText text cs ov fuel = some segs) :
    ∀ s ∈ segs, s.length ≤ cs :=
  chunkTextLoop_length_le text cs ov fuel 0 [] segs h (by simp)

/-- Witness for C4 on a concrete run with the deployed parameters. -/
theorem segment_length_le_target_witness :
    (0 < 100 ∧ 100 < 500 ∧
        chunkText "hello world".toList 500 100 2 =
          some ["hello world".toList]) ∧
      "hello world".toList.length ≤ 500 :=
  ⟨⟨by decide, by decide, rfl⟩,
    segment_length_le_target "hello world".toList 500 100 2 (by decide)
      (by decide) ["hello world".toList] rfl "hello world".toList
      (by simp)⟩

/-- One iteration of the chunker on the non-terminating input: the window is
`"abcd efghi"`, the last space index is 4, and the new start is
`0 + 4 + 1 - 5 = 0` again. -/
theorem chunkTextLoop_stuck_step (n : Nat) (acc : List (List Char)) :
    chunkTextLoop "abcd efghijklmnop".toList 10 5 (n+1) 0 acc =
      chunkTextLoop "abcd efghijklmnop".toList 10 5 n 0
        (acc ++ ["abcd".toList]) := rfl

/-- C2: the chunker does not terminate on every input with
`0 < overlap < chunkSize`: on `"abcd efghijklmnop"` with target 10 and
overlap 5 the loop repeats the state `start = 0` forever, so no amount of
fuel produces a result. -/
theorem chunker_nonterminating :
    ∀ fuel : Nat, chunkText "abcd efghijklmnop".toList 10 5 fuel = none := by
  have aux : ∀ (fuel : Nat) (acc : List (List Char)),
      chunkTextLoop "abcd efghijklmnop".toList 10 5 fuel 0 acc = none := by
    intro fuel
    induction fuel with
    | zero => intro acc; rfl
    | succ n ih =>
      intro acc
      rw [chunkTextLoop_stuck_step]
      exact ih _
  intro fuel
  exact aux fuel []

/-- C1: the chunker can lose characters.  On `"ab cdefghijklmnopqr"` with
target 10 and overlap 5 the produced segments contain no space character at
all, so no way of dropping overlap prefixes rejoins them to the input: the
claimed lossless-coverage property fails. -/
theorem chunker_loses_characters :
    chunkText "ab cdefghijklmnopqr".toList 10 5 20 =
      some ["ab".toList, [], "cdefghijkl".toList, "hijklmnopq".toList,
        "mnopqr".toList] ∧
    ¬ rejoins ["ab".toList, [], "cdefghijkl".toList, "hijklmnopq".toList,
        "mnopqr".toList] "ab cdefghijklmnopqr".toList := by
  refine ⟨rfl, ?_⟩
  rintro ⟨ds, h⟩
  have hsp : ' ' ∈ "ab cdefghijklmnopqr".toList := by decide
  rw [← h] at hsp
  obtain ⟨s, hs, hc⟩ := mem_rejoinDrops _ _ hsp
  simp only [List.mem_cons, List.not_mem_nil, or_false] at hs
  rcases hs with hs | hs | hs | hs | hs <;> subst hs <;> revert hc <;> decide

theorem lastIndexOfChar_lt (c : Char) :
    ∀ l : List Char, 0 ≤ lastIndexOfChar c l →
      (lastIndexOfChar c l).toNat < l.length := by
  intro l
  induction l with
  | nil => intro h; simp [lastIndexOfChar] at h
  | cons a rest ih =>
    intro h
    simp only [lastIndexOfChar] at h ⊢
    split_ifs at h ⊢ with h1 h2
    · have := ih h1
      simp only [List.length_cons]
      omega
    · simp
    · exact absurd h (by norm_num)

theorem lastIndexOfChar_get (c : Char) :
    ∀ l : List Char, 0 ≤ lastIndexOfChar c l →
      l.get? (lastIndexOfChar c l).toNat = some c := by
  intro l
  induction l with
  | nil => intro h; simp [lastIndexOfChar] at h
  | cons a rest ih =>
    intro h
    simp only [lastIndexOfChar] at h ⊢
    split_ifs at h ⊢ with h1 h2
    · have hr := ih h1
      have ht : (lastIndexOfChar c rest + 1).toNat =
          (lastIndexOfChar c rest).toNat + 1 := by omega
      rw [ht]
      simpa using hr
    · simp [h2]
    · exact absurd h (by norm_num)

/-- Reading the window at index `j` reads `text` at `start.toNat + j`, for a
non-negative in-range `start`. -/
theorem windowOf_get (l : List Char) (s : Int) (cs : Nat) (hs : 0 ≤ s)
    (hlt : s < (l.length : Int)) (j : Nat)
    (hj : j < (windowOf l s cs).length) :
    (windowOf l s cs).get? j = l.get? (s.toNat + j) := by
  have ha : jsClamp l.length s = s.toNat := by
    unfold jsClamp
    split_ifs with h
    · omega
    · omega
  have hb : jsClamp l.length s ≤ jsClamp l.length (min (s + cs)
      (l.length : Int)) := by
    have := jsSlice_length l s (min (s + cs) (l.length : Int))
    unfold windowOf at hj
    omega
  unfold windowOf jsSlice
  unfold windowOf jsSlice at hj
  rw [List.get?_eq_getElem?, List.get?_eq_getElem?, List.getElem?_drop,
    List.getElem?_take_of_lt, ha]
  rw [List.length_drop, List.length_take] at hj
  omega

theorem prefOk_nil (text : List Char) (cs : Nat) : PrefOk text cs [] := by
  intro j p hj _
  simp at hj

theorem prefOk_single (text : List Char) (cs : Nat) (x : Int × List Char) :
    PrefOk text cs [x] := by
  intro j p hj _
  simp at hj

theorem prefOk_cons (text : List Char) (cs : Nat) (x : Int × List Char)
    (l : List (Int × List Char)) (hx : SegOk text cs x)
    (hl : PrefOk text cs l) : PrefOk text cs (x :: l) := by
  intro j p hj hp
  cases j with
  | zero =>
    simp only [List.get?_cons_zero, Option.some.injEq] at hp
    exact hp ▸ hx
  | succ j =>
    refine hl j p ?_ (by simpa using hp)
    simp only [List.length_cons] at hj
    omega

/-- Loop invariant for the word-boundary property: a successful run extends
the accumulator with segments of which all but the last satisfy `SegOk`. -/
theorem chunkTextLoopW_prefOk (text : List Char) (cs ov : Nat) :
    ∀ (fuel : Nat) (start : Int) (acc L : List (Int × List Char)),
      chunkTextLoopW text cs ov fuel start acc = some L →
      ∃ suffix, L = acc ++ suffix ∧ PrefOk text cs suffix := by
  intro fuel
  induction fuel with
  | zero => intro start acc L h; cases h
  | succ n ih =>
    intro start acc L h
    simp only [chunkTextLoopW] at h
    split at h
    case isTrue hstart =>
      split at h
      case isTrue hee =>
        split at h
        case isTrue hlsi =>
          obtain ⟨suffix, hL, hpre⟩ := ih _ _ _ h
          refine ⟨_ :: suffix, by simpa using hL,
            prefOk_cons _ _ _ _ ?_ hpre⟩
          intro hs0
          left
          have h0 : 0 ≤ lastIndexOfChar ' '
              (jsSlice text start (min (start + cs) (text.length : Int))) :=
            le_of_lt hlsi
          have hlen := lastIndexOfChar_lt ' '
            (jsSlice text start (min (start + cs) (text.length : Int))) h0
          have hget := lastIndexOfChar_get ' '
            (jsSlice text start (min (start + cs) (text.length : Int))) h0
          have hw := windowOf_get text start cs hs0 hstart
            (lastIndexOfChar ' '
              (jsSlice text start (min (start + cs) (text.length : Int)))).toNat
            hlen
          simp only [windowOf] at hw
          have htake : ((jsSlice text start
              (min (start + cs) (text.length : Int))).take
                (lastIndexOfChar ' '
                  (jsSlice text start
                    (min (start + cs) (text.length : Int)))).toNat).length =
              (lastIndexOfChar ' '
                (jsSlice text start
                  (min (start + cs) (text.length : Int)))).toNat := by
            rw [List.length_take]
            omega
          rw [htake, ← hw]
          exact hget
        case isFalse hlsi =>
          obtain ⟨suffix, hL, hpre⟩ := ih _ _ _ h
          refine ⟨_ :: suffix, by simpa using hL,
            prefOk_cons _ _ _ _ ?_ hpre⟩
          intro _
          right
          exact ⟨by simpa [windowOf] using le_of_not_lt hlsi, rfl⟩
      case isFalse hee =>
        cases h
        exact ⟨[_], rfl, prefOk_single _ _ _⟩
    case isFalse hstart =>
      cases h
      exact ⟨[], by simp, prefOk_nil _ _⟩

/-- C3 (amended): on every successful chunker run, every produced segment
except the last that was cut at a non-negative `start` either ends right
before a space character of the input (the back-off put the boundary on a
space), or its window contained no space at positive index and the segment
is the entire window (the fixed-size fallback). -/
theorem word_boundary_space (text : List Char) (cs ov fuel : Nat)
    (_hov : 0 < ov) (_hcs : ov < cs) (L : List (Int × List Char))
    (h : chunkTextW text cs ov fuel = some L) :
    ∀ i st seg, i + 1 < L.length → L.get? i = some (st, seg) → 0 ≤ st →
      text.get? (st.toNat + seg.length) = some ' ' ∨
        (lastIndexOfChar ' ' (windowOf text st cs) ≤ 0 ∧
          seg = windowOf text st cs) := by
  obtain ⟨suffix, hL, hpre⟩ := chunkTextLoopW_prefOk text cs ov fuel 0 [] L h
  simp only [List.nil_append] at hL
  subst hL
  intro i st seg hi hget hst
  exact hpre i (st, seg) hi hget hst

/-- Witness for the amended C3 on a concrete run: the first segment `"aa"`
of `"aa bb cc"` (target 5, overlap 2) is followed by the space at index 2. -/
theorem word_boundary_space_witness :
    (0 < 2 ∧ 2 < 5 ∧
        chunkTextW "aa bb cc".toList 5 2 20 =
          some [(0, "aa".toList), (1, "a bb".toList), (4, "b cc".toList)]) ∧
      ("aa bb cc".toList.get? ((0 : Int).toNat + "aa".toList.length) =
          some ' ' ∨
        (lastIndexOfChar ' ' (windowOf "aa bb cc".toList 0 5) ≤ 0 ∧
          "aa".toList = windowOf "aa bb cc".toList 0 5)) :=
  ⟨⟨by decide, by decide, rfl⟩,
    word_boundary_space "aa bb cc".toList 5 2 20 (by decide) (by decide)
      [(0, "aa".toList), (1, "a bb".toList), (4, "b cc".toList)] rfl 0 0
      "aa".toList (by decide) (by decide) (by decide)⟩

/-- C3 as stated is false: on `"ab\ncdefghijklmnop"` (target 10, overlap 5)
the first segment's boundary splits the word `"cdefghijklmnop"` although its
window contains whitespace (the newline) — the code only backs off to the
space character `' '`, not to arbitrary whitespace. -/
theorem word_boundary_claim_false :
    ¬ wordBoundaryClaim "ab\ncdefghijklmnop".toList 10 5 50 := by
  intro h
  have h0 := h [(0, "ab\ncdefghi".toList), (5, "efghijklmn".toList),
      (10, "jklmnop".toList)] rfl 0 0 "ab\ncdefghi".toList (by decide)
      (by decide) (by decide)
  rcases h0 with h1 | h1 <;> revert h1 <;> decide

theorem digitVal_digitChar (m : Nat) (h : m < 10) :
    digitVal (Nat.digitChar m) = m := by
  interval_cases m <;> rfl

theorem evalDigits_cons (init : Nat) (c : Char) (l : List Char) :
    evalDigits init (c :: l) = evalDigits (10 * init + digitVal c) l := rfl

theorem evalDigits_toDigitsCore :
    ∀ (fuel n init : Nat) (acc : List Char), n < 10 ^ fuel → 1 ≤ fuel →
      ∃ k, 1 ≤ k ∧
        evalDigits init (Nat.toDigitsCore 10 fuel n acc) =
          evalDigits (init * 10 ^ k + n) acc ∧ n < 10 ^ k := by
  intro fuel
  induction fuel with
  | zero => intro n init acc _ hf; omega
  | succ f ih =>
    intro n init acc hn _
    simp only [Nat.toDigitsCore]
    split
    case isTrue hd =>
      refine ⟨1, le_refl 1, ?_, by omega⟩
      rw [evalDigits_cons, digitVal_digitChar (n % 10) (by omega)]
      have : 10 * init + n % 10 = init * 10 ^ 1 + n := by
        have : n % 10 = n := by omega
        simp [this]
        ring
      rw [this]
    case isFalse hd =>
      have hf1 : 1 ≤ f := by
        rcases Nat.eq_zero_or_pos f with hf0 | hf0
        · subst hf0
          simp only [pow_succ, pow_zero, one_mul] at hn
          omega
        · exact hf0
      have hdiv : n / 10 < 10 ^ f := by
        have : (10 : Nat) ^ (f + 1) = 10 * 10 ^ f := by ring
        rw [this] at hn
        omega
      obtain ⟨k, hk1, hk2, hk3⟩ :=
        ih (n / 10) init (Nat.digitChar (n % 10) :: acc) hdiv hf1
      refine ⟨k + 1, by omega, ?_, ?_⟩
      · rw [hk2, evalDigits_cons, digitVal_digitChar (n % 10) (by omega)]
        congr 1
        have h10 : (10 : Nat) ^ (k + 1) = 10 ^ k * 10 := by ring
        have hsplit : 10 * (n / 10) + n % 10 = n := by omega
        calc 10 * (init * 10 ^ k + n / 10) + n % 10
            = init * (10 ^ k * 10) + (10 * (n / 10) + n % 10) := by ring
          _ = init * 10 ^ (k + 1) + n := by rw [hsplit, ← h10]
      · have h10 : (10 : Nat) ^ (k + 1) = 10 * 10 ^ k := by ring
        rw [h10]
        omega

theorem evalDigits_toDigits (n : Nat) :
    evalDigits 0 (Nat.toDigits 10 n) = n := by
  have hlt : n < 10 ^ (n + 1) := by
    calc n < 2 ^ n := Nat.lt_two_pow n
      _ ≤ 10 ^ n := Nat.pow_le_pow_left (by omega) n
      _ ≤ 10 ^ (n + 1) := Nat.pow_le_pow_right (by omega) (by omega)
  obtain ⟨k, _, h2, _⟩ :=
    evalDigits_toDigitsCore (n + 1) n 0 [] hlt (by omega)
  simpa [evalDigits] using h2

theorem Nat_repr_injective {m n : Nat} (h : Nat.repr m = Nat.repr n) :
    m = n := by
  have hdig : Nat.toDigits 10 m = Nat.toDigits 10 n := by
    have h' := congrArg String.data h
    simpa [Nat.repr, List.asString] using h'
  have hm := evalDigits_toDigits m
  have hn := evalDigits_toDigits n
  rw [hdig] at hm
  omega

theorem chunkIdOf_inj (vid : String) {i j : Nat}
    (h : chunkIdOf vid i = chunkIdOf vid j) : i = j := by
  unfold chunkIdOf at h
  have h' := congrArg String.data h
  simp only [String.data_append] at h'
  have h2 := List.append_cancel_left h'
  exact Nat_repr_injective (String.ext h2)

theorem mkChunkRecords_length (vid : String) (topics : List String)
    (total : Nat) (embeds : List Nat) (time : Nat) :
    ∀ (i : Nat) (chunks : List (List Char)),
      (mkChunkRecords vid topics total embeds time i chunks).length =
        chunks.length := by
  intro i chunks
  induction chunks generalizing i with
  | nil => rfl
  | cons c rest ih => simp [mkChunkRecords, ih]

theorem mkChunkRecords_videoId (vid : String) (topics : List String)
    (total : Nat) (embeds : List Nat) (time : Nat) :
    ∀ (i : Nat) (chunks : List (List Char)) (r : ChunkRow),
      r ∈ mkChunkRecords vid topics total embeds time i chunks →
        r.videoId = vid := by
  intro i chunks
  induction chunks generalizing i with
  | nil => intro r h; cases h
  | cons c rest ih =>
    intro r h
    rcases List.mem_cons.1 h with h | h
    · subst h; rfl
    · exact ih _ r h

theorem mkChunkRecords_ids (vid : String) (topics : List String)
    (total : Nat) (embeds : List Nat) (time : Nat) :
    ∀ (i : Nat) (chunks : List (List Char)) (r : ChunkRow),
      r ∈ mkChunkRecords vid topics total embeds time i chunks →
        ∃ j, i ≤ j ∧ r.id = chunkIdOf vid j := by
  intro i chunks
  induction chunks generalizing i with
  | nil => intro r h; cases h
  | cons c rest ih =>
    intro r h
    rcases List.mem_cons.1 h with h | h
    · exact ⟨i, le_refl i, by rw [h]⟩
    · obtain ⟨j, hj, hid⟩ := ih _ r h
      exact ⟨j, by omega, hid⟩

/-- Inserting freshly-numbered chunk records into a table that holds none of
their ids appends them all: `onConflictDoNothing` never fires. -/
theorem insertChunks_fresh (vid : String) (topics : List String)
    (total : Nat) (embeds : List Nat) (time : Nat) :
    ∀ (chunks : List (List Char)) (i : Nat) (existing : List ChunkRow),
      (∀ r ∈ existing, ∀ j, i ≤ j → r.id ≠ chunkIdOf vid j) →
      insertChunks existing
          (mkChunkRecords vid topics total embeds time i chunks) =
        existing ++ mkChunkRecords vid topics total embeds time i chunks := by
  intro chunks
  induction chunks with
  | nil => intro i existing _; simp [mkChunkRecords, insertChunks]
  | cons c rest ih =>
    intro i existing hfresh
    have hany : existing.any
        (fun x => x.id == chunkIdOf vid i) = false := by
      rw [List.any_eq_false]
      intro r hr
      simpa using hfresh r hr i (le_refl i)
    have hstep : insertChunkIfAbsent existing
        ⟨chunkIdOf vid i, vid, ⟨i, c, embeds.getD i 0, ⟨i, total, topics⟩⟩,
          time⟩ = existing ++ [⟨chunkIdOf vid i, vid,
          ⟨i, c, embeds.getD i 0, ⟨i, total, topics⟩⟩, time⟩] := by
      unfold insertChunkIfAbsent
      simp [hany]
    have hfresh' : ∀ r ∈ existing ++ [(⟨chunkIdOf vid i, vid,
        ⟨i, c, embeds.getD i 0, ⟨i, total, topics⟩⟩, time⟩ : ChunkRow)],
        ∀ j, i + 1 ≤ j → r.id ≠ chunkIdOf vid j := by
      intro r hr j hj
      rcases List.mem_append.1 hr with hr | hr
      · exact hfresh r hr j (by omega)
      · have hr' : r = ⟨chunkIdOf vid i, vid,
            ⟨i, c, embeds.getD i 0, ⟨i, total, topics⟩⟩, time⟩ := by
          simpa using hr
        subst hr'
        intro hc
        have := chunkIdOf_inj vid hc
        omega
    calc insertChunks existing
          (mkChunkRecords vid topics total embeds time i (c :: rest))
        = insertChunks (existing ++ [⟨chunkIdOf vid i, vid,
            ⟨i, c, embeds.getD i 0, ⟨i, total, topics⟩⟩, time⟩])
            (mkChunkRecords vid topics total embeds time (i+1) rest) := by
          simp only [mkChunkRecords, insertChunks, List.foldl_cons, hstep]
      _ = (existing ++ [⟨chunkIdOf vid i, vid,
            ⟨i, c, embeds.getD i 0, ⟨i, total, topics⟩⟩, time⟩]) ++
            mkChunkRecords vid topics total embeds time (i+1) rest :=
          ih (i+1) _ hfresh'
      _ = existing ++ mkChunkRecords vid topics total embeds time i
            (c :: rest) := by
          simp [mkChunkRecords]

/-- C5: in a run where the existence check finds the video, every downstream
step takes its cached branch: the run's outcome is the same under any
collaborator environment with the same lookup behaviour (so no download,
transcription, extraction or embedding call can influence it), the terminal
output is rebuilt purely from the stored record and chunk rows with the
database left untouched, and every intermediate stage reports
`exists = true` to the next one. -/
theorem cached_run_skips_collaborators (env env' : Env) (db : DB)
    (t t' fuel fuel' : Nat) (vid : String) (kw : List String)
    (h : (checkVideoStep env db vid kw).existsFlag = true)
    (h' : env'.lookupError = env.lookupError) :
    runPipeline env db t fuel vid kw = runPipeline env' db t' fuel' vid kw
    ∧ (∃ r, (checkVideoStep env db vid kw).videoRecord = some r ∧
        runPipeline env db t fuel vid kw =
          some (⟨r.fullTranscript, none, true, cachedExtract r,
            cachedCnt db vid, cachedCnt db vid,
            (db.videos.filter fun v => v.id == vid).head?,
            db.chunks.filter fun c => c.videoId == vid⟩, db))
    ∧ (downloadVideoStep env (checkVideoStep env db vid kw)).map
        (fun o => o.existsFlag) = some true
    ∧ ((downloadVideoStep env (checkVideoStep env db vid kw)).bind
        (getTranscriptStep env)).map (fun o => o.existsFlag) = some true
    ∧ (((downloadVideoStep env (checkVideoStep env db vid kw)).bind
        (getTranscriptStep env)).bind (extractDataStep env)).map
        (fun o => o.existsFlag) = some true := by
  have hle : env.lookupError = false := by
    rcases hl : env.lookupError
    · rfl
    · simp [checkVideoStep, checkVideoExists, hl] at h
  obtain ⟨r, rest, hfil⟩ : ∃ r rest,
      db.videos.filter (fun v => v.id == vid) = r :: rest := by
    rcases hf : db.videos.filter (fun v => v.id == vid) with _ | ⟨r, rest⟩
    · simp [checkVideoStep, checkVideoExists, hle, hf] at h
    · exact ⟨r, rest, hf⟩
  have hc : checkVideoStep env db vid kw = ⟨vid, true, some r, kw⟩ := by
    simp [checkVideoStep, checkVideoExists, hle, hfil]
  have hc' : checkVideoStep env' db vid kw = ⟨vid, true, some r, kw⟩ := by
    simp [checkVideoStep, checkVideoExists, h', hle, hfil]
  refine ⟨?_, ⟨r, by simp [hc], ?_⟩, ?_, ?_, ?_⟩ <;>
    simp [runPipeline, runFrom, hc, hc', downloadVideoStep,
      getTranscriptStep, extractDataStep, chunkAndEmbedStep, cachedCnt,
      cachedExtract]

/-- Witness for C5: with a stored video, the run outcome is identical under
the working collaborators and the always-failing ones. -/
theorem cached_run_skips_collaborators_witness :
    (checkVideoStep testEnv ⟨[⟨"v", some "T", none, 3, 4⟩], [], []⟩ "v"
        []).existsFlag = true ∧
      failEnv.lookupError = testEnv.lookupError ∧
      runPipeline testEnv ⟨[⟨"v", some "T", none, 3, 4⟩], [], []⟩ 0 1 "v" [] =
        runPipeline failEnv ⟨[⟨"v", some "T", none, 3, 4⟩], [], []⟩ 5 9 "v"
          [] :=
  ⟨rfl, rfl,
    (cached_run_skips_collaborators testEnv failEnv
      ⟨[⟨"v", some "T", none, 3, 4⟩], [], []⟩ 0 5 1 9 "v" [] rfl rfl).1⟩

/-- C8: when the existence-check lookup throws, the error is swallowed: the
check step reports "not found" with no record, and the whole pipeline run
equals the run that proceeds downstream from a "not found" check — full
reprocessing, with the lookup failure never surfaced. -/
theorem lookup_error_fail_open (env : Env) (db : DB) (t fuel : Nat)
    (vid : String) (kw : List String) (h : env.lookupError = true) :
    checkVideoStep env db vid kw = ⟨vid, false, none, kw⟩ ∧
      runPipeline env db t fuel vid kw =
        runFrom env db t fuel ⟨vid, false, none, kw⟩ := by
  have hc : checkVideoStep env db vid kw = ⟨vid, false, none, kw⟩ := by
    simp [checkVideoStep, checkVideoExists, h]
  exact ⟨hc, by simp [runPipeline, hc]⟩

/-- Witness for C8 with a concrete throwing lookup. -/
theorem lookup_error_fail_open_witness :
    errEnv.lookupError = true ∧
      checkVideoStep errEnv emptyDB "v" [] = ⟨"v", false, none, []⟩ ∧
      runPipeline errEnv emptyDB 0 1 "v" [] =
        runFrom errEnv emptyDB 0 1 ⟨"v", false, none, []⟩ :=
  ⟨rfl, (lookup_error_fail_open errEnv emptyDB 0 1 "v" [] rfl).1,
    (lookup_error_fail_open errEnv emptyDB 0 1 "v" [] rfl).2⟩

/-- C7 (amended): ingesting the same id twice starting from empty stores is
idempotent, but the second run performs no write at all: it leaves the
database exactly as the first run did (in particular `updated-at` keeps the
first run's timestamp; it is not bumped), there is exactly one Item record,
and the second call's `chunksCreated` equals the first call's. -/
theorem ingest_idempotent (env : Env) (t1 t2 fuel : Nat) (vid : String)
    (kw : List String) (o1 : FinalOut) (db1 : DB)
    (hle : env.lookupError = false)
    (h1 : runPipeline env emptyDB t1 fuel vid kw = some (o1, db1)) :
    ∃ o2, runPipeline env db1 t2 fuel vid kw = some (o2, db1) ∧
      db1.videos.map (fun v => (v.id, v.createdAt, v.updatedAt)) =
        [(vid, t1, t1)] ∧
      o2.chunksCreated = o1.chunksCreated := by
  have hc0 : checkVideoStep env emptyDB vid kw = ⟨vid, false, none, kw⟩ := by
    simp [checkVideoStep, checkVideoExists, hle, emptyDB]
  rw [runPipeline, hc0] at h1
  simp only [runFrom, downloadVideoStep, Bool.false_eq_true, if_false] at h1
  rcases hdl : env.download vid with _ | f <;> rw [hdl] at h1
  · simp at h1
  simp only [Option.map_some', Option.some_bind, getTranscriptStep,
    Bool.false_and, Bool.false_eq_true, if_false] at h1
  rcases htr : env.transcribe f kw with _ | tr <;> rw [htr] at h1
  · simp at h1
  simp only [Option.map_some', Option.some_bind, extractDataStep,
    Bool.false_and, Bool.false_eq_true, if_false] at h1
  rcases hex : env.extract tr with _ | ex <;> rw [hex] at h1
  · simp at h1
  simp only [Option.map_some', Option.some_bind, chunkAndEmbedStep,
    Bool.false_eq_true, if_false] at h1
  rcases hch : chunkText tr.toList 500 100 fuel with _ | chunks <;>
    rw [hch] at h1
  · simp at h1
  simp only [Option.some.injEq, Prod.mk.injEq] at h1
  obtain ⟨ho1, hdb1⟩ := h1
  have hvids : db1.videos = [⟨vid, some tr,
      some ⟨none, some ex.summary, ex.speakers, some ex.keyTopics,
        ex.actionItems, some ex.tags, some chunks.length⟩, t1, t1⟩] := by
    rw [← hdb1]
    simp [upsertVideo, emptyDB]
  have hchs : db1.chunks = mkChunkRecords vid ex.keyTopics chunks.length
      (env.embedMany (chunks.map List.asString)) t1 0 chunks := by
    rw [← hdb1]
    have := insertChunks_fresh vid ex.keyTopics chunks.length
      (env.embedMany (chunks.map List.asString)) t1 chunks 0 []
      (by intro r hr; cases hr)
    simpa [emptyDB] using this
  have hc1 : checkVideoStep env db1 vid kw = ⟨vid, true,
      some ⟨vid, some tr, some ⟨none, some ex.summary, ex.speakers,
        some ex.keyTopics, ex.actionItems, some ex.tags,
        some chunks.length⟩, t1, t1⟩, kw⟩ := by
    simp [checkVideoStep, checkVideoExists, hle, hvids]
  have hfilter : db1.chunks.filter (fun c => c.videoId == vid) =
      db1.chunks := by
    rw [List.filter_eq_self]
    intro r hr
    rw [hchs] at hr
    simpa using mkChunkRecords_videoId vid ex.keyTopics chunks.length
      (env.embedMany (chunks.map List.asString)) t1 0 chunks r hr
  refine ⟨⟨some tr, none, true,
      cachedExtract ⟨vid, some tr, some ⟨none, some ex.summary, ex.speakers,
        some ex.keyTopics, ex.actionItems, some ex.tags,
        some chunks.length⟩, t1, t1⟩,
      cachedCnt db1 vid, cachedCnt db1 vid,
      (db1.videos.filter fun v => v.id == vid).head?,
      db1.chunks.filter fun c => c.videoId == vid⟩, ?_, ?_, ?_⟩
  · rw [runPipeline, hc1]
    simp [runFrom, downloadVideoStep, getTranscriptStep, extractDataStep,
      chunkAndEmbedStep, cachedCnt]
  · simp [hvids]
  · have hlen : cachedCnt db1 vid = chunks.length := by
      unfold cachedCnt
      rw [hfilter, hchs, mkChunkRecords_length]
    rw [← ho1]
    simpa using hlen

/-- C7 as stated is false: re-ingesting an already-stored id takes the
cached path of every step, so the second run writes nothing and
`updated-at` is not bumped.  After ingesting `"v1"` at time 1 and again at
time 2, the stored record still carries `updatedAt = 1`, not the second
run's time 2. -/
theorem second_ingest_does_not_bump_updatedAt :
    ((runPipeline testEnv emptyDB 1 3 "v1" []).bind fun p =>
        (runPipeline testEnv p.2 2 3 "v1" []).map fun q =>
          q.2.videos.map fun v => (v.createdAt, v.updatedAt)) =
      some [(1, 1)] ∧ (1 : Nat) ≠ 2 :=
  ⟨rfl, by omega⟩

/-- Witness for the amended C7 on a concrete double run. -/
theorem ingest_idempotent_witness :
    (testEnv.lookupError = false ∧
        runPipeline testEnv emptyDB 1 3 "v1" [] =
          some (⟨some "hello world",
            some "./transcription/file_transcript.txt", true,
            ⟨"sum", ["topic"], none, none, ["tag"]⟩, 1, 1,
            some ⟨"v1", some "hello world",
              some ⟨none, some "sum", none, some ["topic"], none,
                some ["tag"], some 1⟩, 1, 1⟩,
            [⟨"v1_chunk_0", "v1", ⟨0, "hello world".toList, 0,
              ⟨0, 1, ["topic"]⟩⟩, 1⟩]⟩,
          ⟨[⟨"v1", some "hello world",
              some ⟨none, some "sum", none, some ["topic"], none,
                some ["tag"], some 1⟩, 1, 1⟩],
            [⟨"v1_chunk_0", "v1", ⟨0, "hello world".toList, 0,
              ⟨0, 1, ["topic"]⟩⟩, 1⟩],
            [("v1_chunk_0", 0)]⟩)) ∧
      (∃ o2, runPipeline testEnv
          ⟨[⟨"v1", some "hello world",
              some ⟨none, some "sum", none, some ["topic"], none,
                some ["tag"], some 1⟩, 1, 1⟩],
            [⟨"v1_chunk_0", "v1", ⟨0, "hello world".toList, 0,
              ⟨0, 1, ["topic"]⟩⟩, 1⟩],
            [("v1_chunk_0", 0)]⟩ 2 3 "v1" [] =
          some (o2, ⟨[⟨"v1", some "hello world",
              some ⟨none, some "sum", none, some ["topic"], none,
                some ["tag"], some 1⟩, 1, 1⟩],
            [⟨"v1_chunk_0", "v1", ⟨0, "hello world".toList, 0,
              ⟨0, 1, ["topic"]⟩⟩, 1⟩],
            [("v1_chunk_0", 0)]⟩) ∧
        (⟨[⟨"v1", some "hello world",
              some ⟨none, some "sum", none, some ["topic"], none,
                some ["tag"], some 1⟩, 1, 1⟩],
            [⟨"v1_chunk_0", "v1", ⟨0, "hello world".toList, 0,
              ⟨0, 1, ["topic"]⟩⟩, 1⟩],
            [("v1_chunk_0", 0)]⟩ : DB).videos.map
            (fun v => (v.id, v.createdAt, v.updatedAt)) = [("v1", 1, 1)] ∧
        o2.chunksCreated = (⟨some "hello world",
            some "./transcription/file_transcript.txt", true,
            ⟨"sum", ["topic"], none, none, ["tag"]⟩, 1, 1,
            some ⟨"v1", some "hello world",
              some ⟨none, some "sum", none, some ["topic"], none,
                some ["tag"], some 1⟩, 1, 1⟩,
            [⟨"v1_chunk_0", "v1", ⟨0, "hello world".toList, 0,
              ⟨0, 1, ["topic"]⟩⟩, 1⟩]⟩ : FinalOut).chunksCreated) :=
  ⟨⟨rfl, rfl⟩,
    ingest_idempotent testEnv 1 2 3 "v1" [] _ _ rfl rfl⟩

end YtChannel
